import Mathlib

deriving instance DecidableEq for Except

/-!
Shallow embedding of `hashedone/rust-for-cpp-workshop`.

Covered source files:
* `src/practice/02-introduction/src/lib.rs` — four Fibonacci variants over
  `u32` (modelled as `Nat` with additions taken modulo `2^32`).
* `src/practice/03-types-basics/src/lib.rs` — the tic-tac-toe skeleton:
  `Player`, `Game`, `Outcome`, `Outcome::winner`, `Game::new` are embedded
  from the source; the body of `Game::move` is empty in the source, so move
  application is modelled from the specification.
-/

namespace Workshop

/-- Player enum of src/practice/03-types-basics/src/lib.rs: exactly two marks. -/
inductive Player where
  | X
  | O
deriving DecidableEq

/-- The other player, used for turn switching (X↔O). -/
def Player.other : Player → Player
  | Player.X => Player.O
  | Player.O => Player.X

/-- Game struct of src/practice/03-types-basics/src/lib.rs: a board of
optional-player cells (`[Option<Player>; 9]`, embedded as a list whose length
is 9 in every reachable state) plus the active player. -/
structure Game where
  board : List (Option Player)
  player : Player
deriving DecidableEq

/-- Outcome enum of src/practice/03-types-basics/src/lib.rs. -/
inductive Outcome where
  | Ongoing
  | XWon
  | OWon
  | Draw
deriving DecidableEq

/-- `Outcome::winner` of src/practice/03-types-basics/src/lib.rs:
maps a player to that player's winning outcome. -/
def Outcome.winner : Player → Outcome
  | Player.X => Outcome.XWon
  | Player.O => Outcome.OWon

/-- `Game::new` of src/practice/03-types-basics/src/lib.rs:
all 9 cells empty (`[None; 9]`), X to move. -/
def Game.new : Game :=
  { board := List.replicate 9 none, player := Player.X }

/-- Error taxonomy of the spec (§7) for move application. -/
inductive MoveError where
  | InvalidPosition
  | CellOccupied
  | GameOver
deriving DecidableEq

/-- Reading cell `i` of the board; a Rust `[Option<Player>; 9]` index never
misses, the `none` default only covers boards of the wrong length. -/
def cellAt (b : List (Option Player)) (i : Nat) : Option Player :=
  b.getD i none

/-- The 8 winning lines (3 rows, 3 columns, 2 diagonals), 0-indexed row-major. -/
def winningLines : List (Nat × Nat × Nat) :=
  [(0, 1, 2), (3, 4, 5), (6, 7, 8), (0, 3, 6), (1, 4, 7), (2, 5, 8), (0, 4, 8), (2, 4, 6)]

/-- One line fully occupied by player `p`. -/
def lineWonBy (b : List (Option Player)) (p : Player) (l : Nat × Nat × Nat) : Bool :=
  cellAt b l.1 = some p && cellAt b l.2.1 = some p && cellAt b l.2.2 = some p

/-- Some winning line is fully occupied by player `p`. -/
def hasWon (b : List (Option Player)) (p : Player) : Bool :=
  winningLines.any (lineWonBy b p)

/-- All 9 cells occupied. -/
def boardFull (b : List (Option Player)) : Bool :=
  b.all Option.isSome

/-- Outcome determination of the spec (§4.1), in its stated precedence:
win check, then draw check, else ongoing. -/
def outcomeOf (b : List (Option Player)) : Outcome :=
  if hasWon b Player.X then Outcome.XWon
  else if hasWon b Player.O then Outcome.OWon
  else if boardFull b then Outcome.Draw
  else Outcome.Ongoing

/-- Modelled from the spec: the body of `Game::move` in
src/practice/03-types-basics/src/lib.rs is empty, so move application is
modelled from the spec operation
`apply_move(state, position) -> Result<(GameState, Outcome), MoveError>`.
Precondition checks run in the spec order: position out of [0,8] →
`InvalidPosition`; addressed cell occupied → `CellOccupied`; terminal game →
`GameOver`. On success the active player's mark is placed and the outcome of
the new board is returned. Documented choice for the next-player value (the
spec leaves it to the implementer when the move is terminal): the active
player always switches (X↔O), which keeps the spec §3 invariant — X-count
minus O-count is 0 iff it is X's turn — in every reachable state. -/
def apply_move (g : Game) (position : Nat) : Except MoveError (Game × Outcome) :=
  if 8 < position then Except.error MoveError.InvalidPosition
  else if (cellAt g.board position).isSome then Except.error MoveError.CellOccupied
  else if outcomeOf g.board ≠ Outcome.Ongoing then Except.error MoveError.GameOver
  else
    let board := g.board.set position (some g.player)
    Except.ok ({ board := board, player := g.player.other }, outcomeOf board)

/-- The state after a move attempt: the new state on success, the prior state
unchanged on failure. -/
def stepState (g : Game) (p : Nat) : Game :=
  match apply_move g p with
  | Except.ok (g', _) => g'
  | Except.error _ => g

/-- Number of cells occupied by player `p`. -/
def countFor (b : List (Option Player)) (p : Player) : Nat :=
  b.count (some p)

/-- States reachable from `Game.new` in exactly `n` successful moves. -/
inductive ReachableN : Nat → Game → Prop where
  | base : ReachableN 0 Game.new
  | step {n : Nat} {g g' : Game} {p : Nat} {out : Outcome} :
      ReachableN n g → apply_move g p = Except.ok (g', out) → ReachableN (n + 1) g'

/-- States reachable from `Game.new` by successful moves. -/
def Reachable (g : Game) : Prop :=
  ∃ n, ReachableN n g

/-! Fibonacci, src/practice/02-introduction/src/lib.rs. `u32` values are
embedded as `Nat`; the addition `a + b` is `u32` addition, taken modulo
`2^32 = 4294967296`. -/

/-- Loop of `fib_while`: `while n > 1 { n -= 1; c = a + b; a = b; b = c }`
followed by `b`. -/
def fib_while_go : Nat → Nat → Nat → Nat
  | 0, _, b => b
  | 1, _, b => b
  | n + 2, a, b => fib_while_go (n + 1) b ((a + b) % 4294967296)

/-- `fib_while` of src/practice/02-introduction/src/lib.rs. -/
def fib_while (n : Nat) : Nat :=
  if n = 0 then 0 else fib_while_go n 0 1

/-- Loop of `fib_loop`: `loop { if n == 1 { return b }; n -= 1; ... }`.
The case 0 is unreachable from `fib_loop` (its guard returns first). -/
def fib_loop_go : Nat → Nat → Nat → Nat
  | 0, _, b => b
  | 1, _, b => b
  | n + 2, a, b => fib_loop_go (n + 1) b ((a + b) % 4294967296)

/-- `fib_loop` of src/practice/02-introduction/src/lib.rs. -/
def fib_loop (n : Nat) : Nat :=
  if n = 0 then 0 else fib_loop_go n 0 1

/-- Body of `for _ in 1..n` of `fib_for`, iterated `k` times on the pair
`(a, b)`. -/
def fib_for_iter : Nat → Nat × Nat → Nat × Nat
  | 0, p => p
  | k + 1, (a, b) => fib_for_iter k (b, (a + b) % 4294967296)

/-- `fib_for` of src/practice/02-introduction/src/lib.rs: the range `1..n`
has `n - 1` elements when `1 ≤ n`. -/
def fib_for (n : Nat) : Nat :=
  if n = 0 then 0 else (fib_for_iter (n - 1) (0, 1)).2

/-- `inner` of `fib_rec`, arguments in source order `(a, b, n)`. -/
def fib_rec_inner (a b : Nat) : Nat → Nat
  | 0 => a
  | 1 => b
  | n + 2 => fib_rec_inner b ((a + b) % 4294967296) (n + 1)

/-- `fib_rec` of src/practice/02-introduction/src/lib.rs. -/
def fib_rec (n : Nat) : Nat :=
  fib_rec_inner 0 1 n

/-- Instrumented run of the `fib_while` loop: true iff every addition
`a + b` performed by the loop stays below `2^32`, i.e. never overflows. -/
def fib_while_go_safe : Nat → Nat → Nat → Bool
  | 0, _, _ => true
  | 1, _, _ => true
  | n + 2, a, b => decide (a + b < 4294967296) && fib_while_go_safe (n + 1) b ((a + b) % 4294967296)

/-- True iff running `fib_while n` performs no overflowing `u32` addition. -/
def fib_while_safe (n : Nat) : Bool :=
  if n = 0 then true else fib_while_go_safe n 0 1

/-- Test fixture: a board with a completed X row {0,1,2} and two O marks,
as produced by the move sequence X:0, O:3, X:1, O:4, X:2. -/
def xWonBoard : List (Option Player) :=
  [some Player.X, some Player.X, some Player.X,
   some Player.O, some Player.O, none, none, none, none]

/-- Test fixture: the board one X move before `xWonBoard`, X to move at 2. -/
def almostWonBoard : List (Option Player) :=
  [some Player.X, some Player.X, none,
   some Player.O, some Player.O, none, none, none, none]

/-- Test fixture: the board after the single move X:0. -/
def oneMoveBoard : List (Option Player) :=
  [some Player.X, none, none, none, none, none, none, none, none]

/-- Test fixture: the board after the single move X:4. -/
def centerBoard : List (Option Player) :=
  [none, none, none, none, some Player.X, none, none, none, none]

/-! Helper lemmas. -/

/-- Reading a cell after a write: the written value at the written in-range
index, the old cell everywhere else. -/
theorem cellAt_set (b : List (Option Player)) (p i : Nat) (v : Option Player) :
    cellAt (b.set p v) i = if p = i ∧ p < b.length then v else cellAt b i := by
  by_cases h1 : p = i
  · subst h1
    by_cases h2 : p < b.length
    · simp [cellAt, List.getD_eq_getElem?_getD, List.getElem?_set, h2]
    · rw [List.set_eq_of_length_le (by omega)]
      simp [h2]
  · simp [cellAt, List.getD_eq_getElem?_getD, List.getElem?_set, h1]

/-- Unfolding a successful move into the spec preconditions and effects. -/
theorem apply_move_ok_iff {g : Game} {p : Nat} {g' : Game} {out : Outcome} :
    apply_move g p = Except.ok (g', out) ↔
      p ≤ 8 ∧ (cellAt g.board p).isSome = false ∧ outcomeOf g.board = Outcome.Ongoing ∧
      g' = { board := g.board.set p (some g.player), player := g.player.other } ∧
      out = outcomeOf (g.board.set p (some g.player)) := by
  unfold apply_move
  split_ifs with h1 h2 h3
  · simp only [reduceCtorEq, false_iff]
    rintro ⟨hp, -⟩
    omega
  · simp only [reduceCtorEq, false_iff]
    rintro ⟨-, hc, -⟩
    rw [h2] at hc
    exact Bool.true_eq_false.mp hc
  · simp only [reduceCtorEq, false_iff]
    rintro ⟨-, -, ho, -⟩
    exact h3 ho
  · rw [not_not] at h3
    simp only [Except.ok.injEq, Prod.mk.injEq]
    constructor
    · rintro ⟨hg, hout⟩
      exact ⟨by omega, by simpa using h2, h3, hg.symm, hout.symm⟩
    · rintro ⟨-, -, -, hg, hout⟩
      exact ⟨hg.symm, hout.symm⟩

/-- A move at an out-of-range position fails with InvalidPosition. -/
theorem apply_move_invalid {g : Game} {p : Nat} (h : 8 < p) :
    apply_move g p = Except.error MoveError.InvalidPosition := by
  unfold apply_move
  rw [if_pos h]

/-- A move at an in-range occupied cell fails with CellOccupied. -/
theorem apply_move_occupied {g : Game} {p : Nat} (h1 : p ≤ 8)
    (h2 : (cellAt g.board p).isSome = true) :
    apply_move g p = Except.error MoveError.CellOccupied := by
  unfold apply_move
  rw [if_neg (by omega), if_pos h2]

/-- A move at an in-range empty cell of a terminal game fails with GameOver. -/
theorem apply_move_gameover {g : Game} {p : Nat} (h1 : p ≤ 8)
    (h2 : (cellAt g.board p).isSome = false) (h3 : outcomeOf g.board ≠ Outcome.Ongoing) :
    apply_move g p = Except.error MoveError.GameOver := by
  unfold apply_move
  rw [if_neg (by omega), if_neg (by simp [h2]), if_pos h3]

/-- A cell read that sees a mark of a player other than the one just written
saw the same mark before the write. -/
theorem cell_of_set_other {b : List (Option Player)} {p i : Nat} {pl q : Player}
    (hq : q ≠ pl) (h : cellAt (b.set p (some pl)) i = some q) : cellAt b i = some q := by
  rw [cellAt_set] at h
  split at h
  · exact absurd (Option.some.inj h).symm hq
  · exact h

/-- A winning line of a player other than the one just placed already
existed before the write. -/
theorem hasWon_of_set_other {b : List (Option Player)} {p : Nat} {pl q : Player}
    (hq : q ≠ pl) (h : hasWon (b.set p (some pl)) q = true) : hasWon b q = true := by
  unfold hasWon at h ⊢
  rw [List.any_eq_true] at h ⊢
  obtain ⟨l, hl, hw⟩ := h
  refine ⟨l, hl, ?_⟩
  unfold lineWonBy at hw ⊢
  rw [Bool.and_eq_true, Bool.and_eq_true, decide_eq_true_iff, decide_eq_true_iff,
    decide_eq_true_iff] at hw ⊢
  exact ⟨⟨cell_of_set_other hq hw.1.1, cell_of_set_other hq hw.1.2⟩,
    cell_of_set_other hq hw.2⟩

/-- A game is ongoing iff nobody has won and the board is not full. -/
theorem outcomeOf_ongoing_iff {b : List (Option Player)} :
    outcomeOf b = Outcome.Ongoing ↔
      hasWon b Player.X = false ∧ hasWon b Player.O = false ∧ boardFull b = false := by
  unfold outcomeOf
  split_ifs with h1 h2 h3 <;> simp_all

/-- Effect of one in-range write on occupancy counts, in addition form. -/
theorem count_set_add (x : Option Player) :
    ∀ (b : List (Option Player)) (p : Nat) (v w : Option Player), b[p]? = some w →
      (b.set p v).count x + (if w = x then 1 else 0) =
        b.count x + (if v = x then 1 else 0) := by
  intro b
  induction b with
  | nil => intro p v w h; simp at h
  | cons hd tl ih =>
    intro p v w h
    cases p with
    | zero =>
      simp only [List.getElem?_cons_zero, Option.some.injEq] at h
      subst h
      simp only [List.set_cons_zero, List.count_cons, beq_iff_eq]
      omega
    | succ p =>
      simp only [List.getElem?_cons_succ] at h
      have hih := ih p v w h
      simp only [List.set_cons_succ, List.count_cons, beq_iff_eq]
      omega

/-- Invariant of reachable states: 9 cells, n marks after n successful
moves, and the X/O count discipline tied to the active player. -/
theorem reachableN_inv {n : Nat} {g : Game} (h : ReachableN n g) :
    g.board.length = 9 ∧
    countFor g.board Player.X + countFor g.board Player.O = n ∧
    ((countFor g.board Player.X = countFor g.board Player.O ∧ g.player = Player.X) ∨
     (countFor g.board Player.X = countFor g.board Player.O + 1 ∧ g.player = Player.O)) := by
  induction h with
  | base => exact ⟨rfl, rfl, Or.inl ⟨rfl, rfl⟩⟩
  | @step n g g' p out hR hok ih =>
    obtain ⟨hlen, hsum, hinv⟩ := ih
    rw [apply_move_ok_iff] at hok
    obtain ⟨hp, hc, -, hg, -⟩ := hok
    subst hg
    have hplt : p < g.board.length := by omega
    have hbp : g.board[p]? = some none := by
      have hcell : cellAt g.board p = none := by
        cases hcc : cellAt g.board p with
        | none => rfl
        | some v => rw [hcc] at hc; simp at hc
      rw [cellAt, List.getD_eq_getElem?_getD, List.getElem?_eq_getElem hplt] at hcell
      rw [List.getElem?_eq_getElem hplt]
      simpa using hcell
    have hX := count_set_add (some Player.X) g.board p (some g.player) none hbp
    have hO := count_set_add (some Player.O) g.board p (some g.player) none hbp
    simp only [countFor] at hsum hinv ⊢
    cases hpl : g.player with
    | X =>
      rw [hpl] at hX hO
      simp only [reduceIte, Option.some.injEq, reduceCtorEq] at hX hO
      rcases hinv with ⟨he, -⟩ | ⟨-, habs⟩
      · refine ⟨by simp [hlen], by omega, Or.inr ⟨by omega, by decide⟩⟩
      · rw [hpl] at habs
        cases habs
    | O =>
      rw [hpl] at hX hO
      simp only [reduceIte, Option.some.injEq, reduceCtorEq] at hX hO
      rcases hinv with ⟨-, habs⟩ | ⟨he, -⟩
      · rw [hpl] at habs
        cases habs
      · refine ⟨by simp [hlen], by omega, Or.inl ⟨by omega, by decide⟩⟩

/-- The while-loop and the loop-with-break compute the same values. -/
theorem fib_while_go_eq_loop_go : ∀ n a b : Nat, fib_while_go n a b = fib_loop_go n a b := by
  intro n
  induction n using Nat.twoStepInduction with
  | zero => intro a b; rfl
  | one => intro a b; rfl
  | more n ih ih1 =>
    intro a b
    show fib_while_go (n + 2) a b = fib_loop_go (n + 2) a b
    rw [fib_while_go, fib_loop_go]
    exact ih1 b ((a + b) % 4294967296)

/-- The while-loop run for `k + 1` matches `k` iterations of the for-body. -/
theorem fib_while_go_eq_for_iter :
    ∀ k a b : Nat, fib_while_go (k + 1) a b = (fib_for_iter k (a, b)).2 := by
  intro k
  induction k with
  | zero => intro a b; rfl
  | succ k ih =>
    intro a b
    show fib_while_go (k + 2) a b = (fib_for_iter (k + 1) (a, b)).2
    rw [fib_while_go, fib_for_iter]
    exact ih b ((a + b) % 4294967296)

/-- The tail-recursive `inner` matches the while-loop on positive indices. -/
theorem fib_rec_inner_eq_while_go :
    ∀ k a b : Nat, fib_rec_inner a b (k + 1) = fib_while_go (k + 1) a b := by
  intro k
  induction k with
  | zero => intro a b; rfl
  | succ k ih =>
    intro a b
    show fib_rec_inner a b (k + 2) = fib_while_go (k + 2) a b
    rw [fib_rec_inner, fib_while_go]
    exact ih b ((a + b) % 4294967296)

/-! Claim theorems. -/

/-- C1: apply_move performs its precondition checks in order — out-of-range
position fails with InvalidPosition regardless of board state, otherwise an
occupied addressed cell fails with CellOccupied, otherwise a terminal game
fails with GameOver; and on a fresh GameState every one of the 9 positions
succeeds exactly once, a second move on the same position failing with
CellOccupied. -/
theorem C1_precondition_order :
    (∀ (g : Game) (p : Nat), 8 < p → apply_move g p = Except.error MoveError.InvalidPosition) ∧
    (∀ (g : Game) (p : Nat), p ≤ 8 → (cellAt g.board p).isSome = true →
      apply_move g p = Except.error MoveError.CellOccupied) ∧
    (∀ (g : Game) (p : Nat), p ≤ 8 → (cellAt g.board p).isSome = false →
      outcomeOf g.board ≠ Outcome.Ongoing → apply_move g p = Except.error MoveError.GameOver) ∧
    (∀ p : Nat, p ≤ 8 → (apply_move Game.new p).isOk = true ∧
      apply_move (stepState Game.new p) p = Except.error MoveError.CellOccupied) := by
  refine ⟨fun g p h => apply_move_invalid h, fun g p h1 h2 => apply_move_occupied h1 h2,
    fun g p h1 h2 h3 => apply_move_gameover h1 h2 h3, ?_⟩
  decide

/-- Witness for C1: each guarded conjunct applied at a concrete input. -/
theorem C1_precondition_order_witness :
    apply_move Game.new 9 = Except.error MoveError.InvalidPosition ∧
    apply_move (stepState Game.new 4) 4 = Except.error MoveError.CellOccupied ∧
    apply_move { board := xWonBoard, player := Player.O } 5 =
      Except.error MoveError.GameOver ∧
    (apply_move Game.new 4).isOk = true :=
  ⟨C1_precondition_order.1 Game.new 9 (by decide),
   C1_precondition_order.2.1 (stepState Game.new 4) 4 (by decide) (by decide),
   C1_precondition_order.2.2.1 { board := xWonBoard, player := Player.O } 5
     (by decide) (by decide) (by decide),
   (C1_precondition_order.2.2.2 4 (by decide)).1⟩

/-- C3: a failing apply_move never mutates the board or advances the turn —
the resulting state is the prior state — and the same failing input on that
state produces the same error again. -/
theorem C3_failure_preserves_state {g : Game} {p : Nat} {e : MoveError}
    (h : apply_move g p = Except.error e) :
    stepState g p = g ∧ apply_move (stepState g p) p = Except.error e := by
  have hs : stepState g p = g := by
    unfold stepState
    rw [h]
  exact ⟨hs, by rw [hs, h]⟩

/-- Witness for C3: the out-of-range failure at position 9 on a fresh game. -/
theorem C3_failure_preserves_state_witness :
    stepState Game.new 9 = Game.new ∧
    apply_move (stepState Game.new 9) 9 = Except.error MoveError.InvalidPosition :=
  C3_failure_preserves_state (by decide)

/-- C7: Game.new never fails and returns a game whose 9 cells are all empty
with X as the active player. -/
theorem C7_new_game :
    Game.new.board = List.replicate 9 none ∧ Game.new.player = Player.X ∧
    Game.new.board.length = 9 := by
  decide

/-- C8: Outcome.winner maps each of the two Player values to that player's
winning outcome. -/
theorem C8_winner_mapping :
    Outcome.winner Player.X = Outcome.XWon ∧ Outcome.winner Player.O = Outcome.OWon ∧
    (∀ p : Player, p = Player.X ∨ p = Player.O) := by
  refine ⟨rfl, rfl, fun p => ?_⟩
  cases p
  · exact Or.inl rfl
  · exact Or.inr rfl

/-- C9: the four Fibonacci implementations agree on every input (stated for
all naturals, which covers every u32 input), with u32 additions taken
modulo 2^32. -/
theorem C9_fib_equivalence :
    ∀ n : Nat, fib_while n = fib_loop n ∧ fib_while n = fib_for n ∧ fib_while n = fib_rec n := by
  intro n
  cases n with
  | zero => exact ⟨rfl, rfl, rfl⟩
  | succ m =>
    refine ⟨?_, ?_, ?_⟩
    · show fib_while (m + 1) = fib_loop (m + 1)
      unfold fib_while fib_loop
      rw [if_neg (by omega), if_neg (by omega)]
      exact fib_while_go_eq_loop_go (m + 1) 0 1
    · show fib_while (m + 1) = fib_for (m + 1)
      unfold fib_while fib_for
      rw [if_neg (by omega), if_neg (by omega)]
      exact fib_while_go_eq_for_iter m 0 1
    · show fib_while (m + 1) = fib_rec (m + 1)
      unfold fib_while fib_rec
      rw [if_neg (by omega)]
      exact (fib_rec_inner_eq_while_go m 0 1).symm

/-- C10: for every n ≤ 47, fib_while computes the mathematical Fibonacci
number and performs no overflowing u32 addition; 47 is the largest such
index, as F(47) fits in u32 while F(48) does not; Nat.fib satisfies the
claim's defining recurrence F(0) = 0, F(1) = 1, F(k+2) = F(k) + F(k+1). -/
theorem C10_fib_while_correct_below_48 :
    (∀ n : Nat, n ≤ 47 → fib_while n = Nat.fib n ∧ fib_while_safe n = true) ∧
    Nat.fib 47 < 4294967296 ∧ 4294967296 ≤ Nat.fib 48 ∧
    Nat.fib 0 = 0 ∧ Nat.fib 1 = 1 ∧
    (∀ k : Nat, Nat.fib (k + 2) = Nat.fib k + Nat.fib (k + 1)) := by
  refine ⟨by decide, by decide, by decide, rfl, rfl, fun k => Nat.fib_add_two⟩

/-- Witness for C10: the bounded statement applied at n = 47. -/
theorem C10_fib_while_correct_below_48_witness :
    fib_while 47 = Nat.fib 47 ∧ fib_while_safe 47 = true :=
  C10_fib_while_correct_below_48.1 47 (by decide)

/-- C2: after a successful move the returned Outcome follows the stated
precedence — a fully occupied winning line yields that player's win, else a
full board yields Draw, else Ongoing. -/
theorem C2_outcome_determination {g : Game} {p : Nat} {g' : Game} {out : Outcome}
    (hok : apply_move g p = Except.ok (g', out)) :
    (∀ q : Player, hasWon g'.board q = true → out = Outcome.winner q) ∧
    (hasWon g'.board Player.X = false → hasWon g'.board Player.O = false →
      boardFull g'.board = true → out = Outcome.Draw) ∧
    (hasWon g'.board Player.X = false → hasWon g'.board Player.O = false →
      boardFull g'.board = false → out = Outcome.Ongoing) := by
  rw [apply_move_ok_iff] at hok
  obtain ⟨hp, hc, hong, hg, hout⟩ := hok
  rw [outcomeOf_ongoing_iff] at hong
  obtain ⟨hX, hO, -⟩ := hong
  subst hg
  subst hout
  refine ⟨?_, ?_, ?_⟩
  · intro q hq
    cases q with
    | X => simp [outcomeOf, hq, Outcome.winner]
    | O =>
      have hX' : hasWon (g.board.set p (some g.player)) Player.X = false := by
        by_contra hx
        rw [Bool.not_eq_false] at hx
        cases hpl : g.player with
        | X =>
          rw [hpl] at hq
          have := hasWon_of_set_other (by decide) hq
          simp [hO] at this
        | O =>
          rw [hpl] at hx
          have := hasWon_of_set_other (by decide) hx
          simp [hX] at this
      simp [outcomeOf, hX', hq, Outcome.winner]
  · intro h1 h2 h3
    simp [outcomeOf, h1, h2, h3]
  · intro h1 h2 h3
    simp [outcomeOf, h1, h2, h3]

/-- Witness for C2: the winning move X:2 on `almostWonBoard` yields XWon,
and the first move of a fresh game yields Ongoing. -/
theorem C2_outcome_determination_witness :
    Outcome.XWon = Outcome.winner Player.X ∧ Outcome.Ongoing = Outcome.Ongoing :=
  ⟨(C2_outcome_determination
      (show apply_move { board := almostWonBoard, player := Player.X } 2 =
          Except.ok ({ board := xWonBoard, player := Player.O }, Outcome.XWon) by decide)).1
      Player.X (by decide),
   (C2_outcome_determination
      (show apply_move Game.new 0 =
          Except.ok ({ board := oneMoveBoard, player := Player.O }, Outcome.Ongoing)
        by decide)).2.2
      (by decide) (by decide) (by decide)⟩

/-- C4: in every reachable GameState the X-count minus the O-count is 0 or 1
with the active player X exactly when it is 0, and after n successful moves
the active player is X iff n is even. -/
theorem C4_turn_alternation :
    (∀ g : Game, Reachable g →
      ((countFor g.board Player.X = countFor g.board Player.O ∧ g.player = Player.X) ∨
       (countFor g.board Player.X = countFor g.board Player.O + 1 ∧ g.player = Player.O))) ∧
    (∀ (n : Nat) (g : Game), ReachableN n g → (g.player = Player.X ↔ n % 2 = 0)) := by
  constructor
  · rintro g ⟨n, h⟩
    exact (reachableN_inv h).2.2
  · intro n g h
    obtain ⟨-, hsum, hinv⟩ := reachableN_inv h
    rcases hinv with ⟨he, hpl⟩ | ⟨he, hpl⟩
    · rw [hpl]
      exact ⟨fun _ => by omega, fun _ => rfl⟩
    · rw [hpl]
      constructor
      · intro hx
        cases hx
      · intro hn
        exfalso
        omega

/-- Witness for C4: both parts applied to concrete reachable states — the
fresh game for the invariant, one successful move for the parity. -/
theorem C4_turn_alternation_witness :
    ((countFor Game.new.board Player.X = countFor Game.new.board Player.O ∧
      Game.new.player = Player.X) ∨
     (countFor Game.new.board Player.X = countFor Game.new.board Player.O + 1 ∧
      Game.new.player = Player.O)) ∧
    (({ board := oneMoveBoard, player := Player.O } : Game).player = Player.X ↔ 1 % 2 = 0) :=
  ⟨C4_turn_alternation.1 Game.new ⟨0, ReachableN.base⟩,
   C4_turn_alternation.2 1 { board := oneMoveBoard, player := Player.O }
     (ReachableN.step ReachableN.base
       (show apply_move Game.new 0 =
           Except.ok ({ board := oneMoveBoard, player := Player.O }, Outcome.Ongoing)
         by decide))⟩

/-- C5: a successful move turns the addressed cell from empty to the active
player's mark, leaves every other cell unchanged, keeps the board at exactly
9 cells, and never reverts an occupied cell to empty. -/
theorem C5_frame_effect {g : Game} {p : Nat} {g' : Game} {out : Outcome}
    (hlen : g.board.length = 9) (hok : apply_move g p = Except.ok (g', out)) :
    cellAt g.board p = none ∧ cellAt g'.board p = some g.player ∧
    (∀ i : Nat, i ≠ p → cellAt g'.board i = cellAt g.board i) ∧
    g'.board.length = 9 ∧
    (∀ (i : Nat) (q : Player), cellAt g.board i = some q → cellAt g'.board i = some q) := by
  rw [apply_move_ok_iff] at hok
  obtain ⟨hp, hc, -, hg, -⟩ := hok
  subst hg
  have hempty : cellAt g.board p = none := by
    cases hcc : cellAt g.board p with
    | none => rfl
    | some v => rw [hcc] at hc; simp at hc
  refine ⟨hempty, ?_, ?_, ?_, ?_⟩
  · show cellAt (g.board.set p (some g.player)) p = some g.player
    rw [cellAt_set, if_pos ⟨rfl, by omega⟩]
  · intro i hi
    show cellAt (g.board.set p (some g.player)) i = cellAt g.board i
    rw [cellAt_set, if_neg (by tauto)]
  · show (g.board.set p (some g.player)).length = 9
    simp [hlen]
  · intro i q hq
    show cellAt (g.board.set p (some g.player)) i = some q
    by_cases hip : i = p
    · subst hip
      rw [hq] at hempty
      cases hempty
    · rw [cellAt_set, if_neg (by tauto)]
      exact hq

/-- Witness for C5: the first move of a fresh game at position 4. -/
theorem C5_frame_effect_witness :
    cellAt Game.new.board 4 = none ∧
    cellAt (({ board := centerBoard, player := Player.O } : Game)).board 4 =
      some Game.new.player :=
  have h := C5_frame_effect (by decide)
    (show apply_move Game.new 4 =
        Except.ok ({ board := centerBoard, player := Player.O }, Outcome.Ongoing)
      by decide)
  ⟨h.1, h.2.1⟩

/-- C6 counterexample: on a game already won by X, a move attempt at the
occupied cell 0 fails with CellOccupied, not with GameOver, refuting the
claim that every attempt after a terminal outcome fails with GameOver. -/
theorem C6_counterexample :
    outcomeOf xWonBoard = Outcome.XWon ∧
    apply_move { board := xWonBoard, player := Player.O } 0 =
      Except.error MoveError.CellOccupied ∧
    apply_move { board := xWonBoard, player := Player.O } 0 ≠
      Except.error MoveError.GameOver := by
  decide

/-- C6 (amended): terminal outcomes are absorbing — once the board has a
terminal outcome no apply_move ever succeeds, every attempt fails with some
error, and an in-range attempt at an empty cell fails with GameOver (the
earlier checks fire for out-of-range or occupied inputs); hence terminal
states have no outgoing transitions. -/
theorem C6_terminal_absorbing {g : Game} {p : Nat}
    (h : outcomeOf g.board ≠ Outcome.Ongoing) :
    (∀ (g' : Game) (out : Outcome), apply_move g p ≠ Except.ok (g', out)) ∧
    (∃ e : MoveError, apply_move g p = Except.error e) ∧
    (p ≤ 8 → (cellAt g.board p).isSome = false →
      apply_move g p = Except.error MoveError.GameOver) := by
  have herr : ∃ e : MoveError, apply_move g p = Except.error e := by
    by_cases hp : 8 < p
    · exact ⟨_, apply_move_invalid hp⟩
    · by_cases hc : (cellAt g.board p).isSome = true
      · exact ⟨_, apply_move_occupied (by omega) hc⟩
      · exact ⟨_, apply_move_gameover (by omega) (by simpa using hc) h⟩
  obtain ⟨e, he⟩ := herr
  refine ⟨fun g' out hok => ?_, ⟨e, he⟩, fun h1 h2 => apply_move_gameover h1 h2 h⟩
  rw [he] at hok
  cases hok

/-- Witness for C6 (amended): the won game refuses the empty cell 5 with
GameOver. -/
theorem C6_terminal_absorbing_witness :
    apply_move { board := xWonBoard, player := Player.O } 5 =
      Except.error MoveError.GameOver :=
  (C6_terminal_absorbing (by decide)).2.2 (by decide) (by decide)

end Workshop
